import Mathlib

/-!
Verification of the `2_run-asoh-estimation.ipynb` notebook from
ROVI-org/model-to-prognosis.

The notebook is glue code around the external `moirae` estimation library:
it pads the reference OCV curve of an initial ASOH (advanced state of
health) object, builds a joint UKF estimator per cell via
`create_estimator`, and runs a batch loop over cell datasets, persisting
the per-sample estimates (joined onto `raw_data`) and per-cycle averages
(joined onto `cycle_stats`) into one output file per cell.

We shallowly embed the notebook's data flow: pandas data frames become
association lists of named rational-valued columns, the estimates
directory becomes an association list of written files, and the external
`run_online_estimate` call becomes an abstract function returning
`Except LinAlgError` so that the notebook's `try/except np.linalg.LinAlgError`
handling can be analysed.  Python object aliasing (relevant to the
`model_copy(deep=True)` call) is modelled with an explicit heap of
objects addressed by natural-number references.
-/

namespace RunAsohEstimation

/-! ## Basic data model -/

/-- A pandas column: rational values, one per sample row. -/
abbrev Column := List ℚ

/-- A pandas data frame, modelled as named columns in order; rows are
aligned positionally across columns. -/
abbrev DataFrame := List (String × Column)

/-- Look a column up by name (first match, as pandas column access). -/
def getCol? (df : DataFrame) (name : String) : Option Column :=
  df.lookup name

/-- Column access that defaults to the empty column (used only where the
notebook would have a guaranteed hit). -/
def getCol (df : DataFrame) (name : String) : Column :=
  (getCol? df name).getD []

/-- Model of `df[name].iloc(0)`: the first entry of a named column, when present. -/
def firstVal (df : DataFrame) (name : String) : Option ℚ :=
  (getCol df name).head?

/-- The ECM advanced-state-of-health object: total capacity `q_t`, the
series-resistance curve `r0`, and the reference OCV table (`soc_pinpoints`
with their `base_values`).  Only the pieces the notebook touches are
modelled. -/
structure ECMASOH where
  q_t : ℚ
  r0 : List ℚ
  soc_pinpoints : List ℚ
  base_values : List ℚ
  deriving DecidableEq, Repr

/-- The ECM transient state: state of charge and hysteresis voltage. -/
structure ECMTransientVector where
  soc : ℚ
  hyst : ℚ
  deriving DecidableEq, Repr

/-- Model of `ECMTransientVector.from_asoh`: a zero-initialized transient state
consistent with an ASOH object. -/
def ECMTransientVector.from_asoh (_ : ECMASOH) : ECMTransientVector :=
  { soc := 0, hyst := 0 }

/-! ## OCV table padding (notebook cell 4)

The notebook replaces the reference OCV table by a padded one:
`soc_pinpoints = [-0.1] + original + [1.1]` and
`base_vals = [0.] + original + [6.5]`, then selects linear interpolation.
-/

/-- Padding `soc_pinpoints = [-0.1] + initial_asoh.ocv.ocv_ref.soc_pinpoints + [1.1]`. -/
def padSocPinpoints (orig : List ℚ) : List ℚ :=
  -1/10 :: (orig ++ [11/10])

/-- Padding `base_vals = [0.] + initial_asoh.ocv.ocv_ref.base_values + [6.5]`. -/
def padBaseVals (orig : List ℚ) : List ℚ :=
  0 :: (orig ++ [13/2])

/-- Piecewise-linear interpolation over a table of pinpoints and values:
scan consecutive pinpoint pairs for a bracketing segment and interpolate
on it; `none` when no segment brackets the query (query out of range). -/
def lininterp : List ℚ → List ℚ → ℚ → Option ℚ
  | p0 :: p1 :: ps, v0 :: v1 :: vs, x =>
      if p0 ≤ x ∧ x ≤ p1 then
        some (v0 + (v1 - v0) * (x - p0) / (p1 - p0))
      else
        lininterp (p1 :: ps) (v1 :: vs) x
  | _, _, _ => none

/-! ## `create_estimator` (notebook cell 9), pure view

The factory's configuration as a value: every argument the notebook
passes to `JointEstimator.initialize_unscented_kalman_filter`.
Covariance matrices are total functions `ℕ → ℕ → ℚ` read on
`[0, dim) × [0, dim)`.
-/

/-- A square-matrix entry function (read on indices below the
corresponding dimension). -/
abbrev MatF := Nat → Nat → ℚ

/-- Model of `np.diag(d)`. -/
def diagM (d : List ℚ) : MatF :=
  fun i j => if i = j then d.getD i 0 else 0

/-- Model of `c * np.eye(n)` (the `n` is tracked separately as the dimension). -/
def scaledEyeM (c : ℚ) : MatF :=
  fun i j => if i = j then c else 0

/-- The initial model inputs built from the dataset's first sample
(`ECMInput(time=..., current=...)`); `none` models the failure on an
empty frame. -/
structure ECMInput where
  time : Option ℚ
  current : Option ℚ
  deriving DecidableEq, Repr

/-- Everything `create_estimator` hands to the UKF factory. -/
structure EstimatorConfig where
  initial_asoh : ECMASOH
  initial_inputs : ECMInput
  initial_transients : ECMTransientVector
  covariance_asoh : MatF
  dim_asoh : Nat
  covariance_transient : MatF
  transient_covariance_process_noise : MatF
  asoh_covariance_process_noise : MatF
  covariance_sensor_noise : MatF

/-- The list of prior ASOH variances:
`[(2.5e-03 * q_t)^2] + [(2.5e-03 * r)^2 for r in r0]`. -/
def asohCovDiag (asoh : ECMASOH) : List ℚ :=
  ((25/10000) * asoh.q_t) ^ 2 :: asoh.r0.map (fun r => ((25/10000) * r) ^ 2)

/-- Model of `create_estimator(dataset)`: the estimator configuration the notebook
builds from the module-level `initial_asoh` and the dataset's first
`test_time` / `current` sample.  The returned initial ASOH is a deep copy
(a value in this pure view; aliasing is treated in the heap model below). -/
def create_estimator (initial_asoh : ECMASOH) (dataset : DataFrame) : EstimatorConfig :=
  let asoh_covariance := asohCovDiag initial_asoh
  let init_transients :=
    { ECMTransientVector.from_asoh initial_asoh with soc := 1 }
  { initial_asoh := initial_asoh
    initial_inputs :=
      { time := firstVal dataset "test_time"
        current := firstVal dataset "current" }
    initial_transients := init_transients
    covariance_asoh := diagM asoh_covariance
    dim_asoh := asoh_covariance.length
    covariance_transient := diagM [1/12, 25/100000000]
    transient_covariance_process_noise := scaledEyeM (1/100000000)
    asoh_covariance_process_noise := scaledEyeM (1/10000000000)
    covariance_sensor_noise := scaledEyeM (((1/1000) / 2) ^ 2) }

/-! ## Joining estimates onto the raw data (notebook cell 11)

`cell.raw_data.join(output.rename(columns=lambda x: f'est_{x}'))` and the
per-cycle aggregation
`output.groupby('cycle_number').mean()` joined onto `cycle_stats`.
-/

/-- Model of the column rename `est_` ++ name applied by the loop. -/
def renameEst (df : DataFrame) : DataFrame :=
  df.map (fun c => ("est_" ++ c.1, c.2))

/-- Model of `df.join(other)`: pandas index-aligned left join; with both frames
sharing the default positional index this concatenates the columns. -/
def joinFrames (df other : DataFrame) : DataFrame :=
  df ++ other

/-- Add one keyed row into a running (key, sum, count) aggregation. -/
def insertRow (k v : ℚ) : List (ℚ × ℚ × ℕ) → List (ℚ × ℚ × ℕ)
  | [] => [(k, v, 1)]
  | (k2, s, n) :: rest =>
      if k2 = k then (k2, v + s, n + 1) :: rest
      else (k2, s, n) :: insertRow k v rest

/-- Aggregate (key, value) rows into per-key sums and counts. -/
def groupAgg : List (ℚ × ℚ) → List (ℚ × ℚ × ℕ)
  | [] => []
  | (k, v) :: rest => insertRow k v (groupAgg rest)

/-- Find a key's (sum, count) pair in an aggregation. -/
def findAgg : List (ℚ × ℚ × ℕ) → ℚ → Option (ℚ × ℕ)
  | [], _ => none
  | (k, s, n) :: rest, c => if k = c then some (s, n) else findAgg rest c

/-- Model of `groupby(key).mean()` for one value column: per-key arithmetic mean of
the values carrying that key. -/
def groupbyMean (rows : List (ℚ × ℚ)) : List (ℚ × ℚ) :=
  (groupAgg rows).map (fun e => (e.1, e.2.1 / (e.2.2 : ℚ)))

/-- Find a key's mean in a grouped result. -/
def findMean : List (ℚ × ℚ) → ℚ → Option ℚ
  | [], _ => none
  | (k, v) :: rest, c => if k = c then some v else findMean rest c

/-- The samples of one cycle, in row order (spec-side reading of
"exactly the samples belonging to that cycle"). -/
def cycleSamples (rows : List (ℚ × ℚ)) (c : ℚ) : List ℚ :=
  (rows.filter (fun r => r.1 = c)).map (fun r => r.2)

/-- The simple arithmetic mean of one cycle's samples (spec-side). -/
def cycleMean (rows : List (ℚ × ℚ)) (c : ℚ) : ℚ :=
  (cycleSamples rows c).sum / ((cycleSamples rows c).length : ℚ)

/-! ## The batch loop (notebook cell 11) -/

/-- A cell dataset: file name, raw measurements, per-cycle statistics. -/
structure BatteryDataset where
  name : String
  raw_data : DataFrame
  cycle_stats : DataFrame
  deriving DecidableEq, Repr

/-- The estimates directory: files written so far, keyed by name. -/
abbrev FileSystem := List (String × BatteryDataset)

/-- The external `run_online_estimate`: per-sample estimate columns on
success, or `np.linalg.LinAlgError` (no payload we use). -/
abbrev RunEstimate := BatteryDataset → Except Unit DataFrame

/-- Post-run bookkeeping of the loop body: join the renamed estimates
onto `raw_data`, average them per `cycle_number`, and join the renamed
averages onto `cycle_stats`. -/
def attachEstimates (cell : BatteryDataset) (output : DataFrame) : BatteryDataset :=
  let raw' := joinFrames cell.raw_data (renameEst output)
  let cycles := getCol cell.raw_data "cycle_number"
  let by_cycle : DataFrame :=
    output.map (fun c => (c.1, (groupbyMean (cycles.zip c.2)).map (fun e => e.2)))
  let cycle' := joinFrames cell.cycle_stats (renameEst by_cycle)
  { cell with raw_data := raw', cycle_stats := cycle' }

/-- One iteration of the batch loop: skip when the output file exists;
otherwise run the estimate, swallowing `LinAlgError` (print-and-continue),
and on success write the fully attached cell to the output file. -/
def processCell (runEst : RunEstimate) (fs : FileSystem) (cell : BatteryDataset) :
    FileSystem :=
  if (fs.lookup cell.name).isSome then fs
  else
    match runEst cell with
    | .error _ => fs
    | .ok output => fs ++ [(cell.name, attachEstimates cell output)]

/-- Model of the `for path in tqdm(all_cells)` loop over the estimates directory. -/
def batchLoop (runEst : RunEstimate) (fs : FileSystem) (cells : List BatteryDataset) :
    FileSystem :=
  cells.foldl (processCell runEst) fs

/-! ## Heap model of Python aliasing

`initial_asoh` is a module-level object; `create_estimator` passes
`initial_asoh.model_copy(deep=True)` to the factory and builds a fresh
`ECMTransientVector` per call.  References are indices into per-type
object lists.
-/

/-- The Python object heap (only the object kinds the loop mutates). -/
structure Heap where
  asohs : List ECMASOH
  trans : List ECMTransientVector
  deriving Repr

/-- Allocate a new ASOH object, returning its reference. -/
def Heap.allocAsoh (h : Heap) (a : ECMASOH) : Heap × Nat :=
  ({ h with asohs := h.asohs ++ [a] }, h.asohs.length)

/-- Allocate a new transient-state object, returning its reference. -/
def Heap.allocTran (h : Heap) (t : ECMTransientVector) : Heap × Nat :=
  ({ h with trans := h.trans ++ [t] }, h.trans.length)

/-- Dereference an ASOH object. -/
def Heap.readAsoh (h : Heap) (r : Nat) : Option ECMASOH :=
  h.asohs[r]?

/-- Dereference a transient-state object. -/
def Heap.readTran (h : Heap) (r : Nat) : Option ECMTransientVector :=
  h.trans[r]?

/-- Mutate an ASOH object in place. -/
def Heap.writeAsoh (h : Heap) (r : Nat) (a : ECMASOH) : Heap :=
  { h with asohs := h.asohs.set r a }

/-- Mutate a transient-state object in place. -/
def Heap.writeTran (h : Heap) (r : Nat) (t : ECMTransientVector) : Heap :=
  { h with trans := h.trans.set r t }

/-- The references a constructed estimator owns: its working ASOH copy
and its working transient state. -/
structure EstimatorRef where
  asohRef : Nat
  tranRef : Nat
  deriving DecidableEq, Repr

/-- Heap-level `create_estimator`: build `init_transients` from the
module-level ASOH, set its `soc` to `1.`, and pass
`initial_asoh.model_copy(deep=True)` (a freshly allocated copy) to the
factory. -/
def create_estimatorH (h : Heap) (initialAsohRef : Nat) : Heap × EstimatorRef :=
  let asoh := (h.readAsoh initialAsohRef).getD ⟨0, [], [], []⟩
  let ht := h.allocTran (ECMTransientVector.from_asoh asoh)
  let h1 := ht.1
  let t := ht.2
  let h2 := h1.writeTran t
    { (h1.readTran t).getD ⟨0, 0⟩ with soc := 1 }
  let ha := h2.allocAsoh asoh
  (ha.1, { asohRef := ha.2, tranRef := t })

/-- One filter tick's correction step, modelled abstractly: the filter
writes the corrected parameters back into ITS working ASOH copy and the
corrected transient state into ITS working transient object. -/
def applyCorrection (h : Heap) (e : EstimatorRef)
    (step : (ECMASOH → ECMASOH) × (ECMTransientVector → ECMTransientVector)) : Heap :=
  let h1 := h.writeAsoh e.asohRef (step.1 ((h.readAsoh e.asohRef).getD ⟨0, [], [], []⟩))
  h1.writeTran e.tranRef (step.2 ((h1.readTran e.tranRef).getD ⟨0, 0⟩))

/-- Run an estimator to completion: apply every step's correction. -/
def runFilterH (h : Heap) (e : EstimatorRef)
    (steps : List ((ECMASOH → ECMASOH) × (ECMTransientVector → ECMTransientVector))) :
    Heap :=
  steps.foldl (fun hh s => applyCorrection hh e s) h

/-- Heap-level batch loop: each cell gets its own freshly constructed
estimator, which is then run to completion on that cell's steps; the
estimator references are collected in order. -/
def batchLoopH (asohRef : Nat)
    (runs : BatteryDataset →
      List ((ECMASOH → ECMASOH) × (ECMTransientVector → ECMTransientVector))) :
    Heap → List BatteryDataset → Heap × List EstimatorRef
  | h, [] => (h, [])
  | h, cell :: rest =>
      let he := create_estimatorH h asohRef
      let h2 := runFilterH he.1 he.2 (runs cell)
      let hr := batchLoopH asohRef runs h2 rest
      (hr.1, he.2 :: hr.2)

/-! ## Covariance properties (claim C4) -/

/-- The quadratic form `xᵀ M x` over the index range `[0, n)`. -/
def quadForm (n : Nat) (M : MatF) (x : Nat → ℚ) : ℚ :=
  ∑ i ∈ Finset.range n, ∑ j ∈ Finset.range n, x i * M i j * x j

/-- A matrix function is symmetric. -/
def IsSymmM (M : MatF) : Prop := ∀ i j, M i j = M j i

/-- A matrix function is diagonal. -/
def IsDiagM (M : MatF) : Prop := ∀ i j, i ≠ j → M i j = 0

/-- A valid covariance on dimension `n`: symmetric and positive
semi-definite. -/
def ValidCovariance (n : Nat) (M : MatF) : Prop :=
  IsSymmM M ∧ ∀ x : Nat → ℚ, 0 ≤ quadForm n M x

/-- Diagonal with non-negative diagonal, hence a valid covariance. -/
def DiagPSD (n : Nat) (M : MatF) : Prop :=
  IsDiagM M ∧ (∀ i, 0 ≤ M i i) ∧ ValidCovariance n M

theorem isSymmM_of_isDiagM {M : MatF} (hD : IsDiagM M) : IsSymmM M := by
  intro i j
  by_cases h : i = j
  · subst h; rfl
  · rw [hD i j h, hD j i (Ne.symm h)]

theorem quadForm_diag (n : Nat) (M : MatF) (hD : IsDiagM M) (x : Nat → ℚ) :
    quadForm n M x = ∑ i ∈ Finset.range n, M i i * x i ^ 2 := by
  unfold quadForm
  refine Finset.sum_congr rfl (fun i hi => ?_)
  rw [Finset.sum_eq_single i]
  · ring
  · intro j _ hne
    rw [hD i j (Ne.symm hne)]; ring
  · intro hii; exact absurd hi hii

theorem diagPSD_of {n : Nat} {M : MatF} (hD : IsDiagM M) (hnn : ∀ i, 0 ≤ M i i) :
    DiagPSD n M := by
  refine ⟨hD, hnn, isSymmM_of_isDiagM hD, fun x => ?_⟩
  rw [quadForm_diag n M hD x]
  exact Finset.sum_nonneg fun i _ => mul_nonneg (hnn i) (sq_nonneg _)

theorem diagM_isDiag (d : List ℚ) : IsDiagM (diagM d) := by
  intro i j h
  simp [diagM, h]

theorem scaledEyeM_isDiag (c : ℚ) : IsDiagM (scaledEyeM c) := by
  intro i j h
  simp [scaledEyeM, h]

theorem getD_nonneg {l : List ℚ} (h : ∀ a ∈ l, 0 ≤ a) (i : Nat) :
    0 ≤ l.getD i 0 := by
  induction l generalizing i with
  | nil => simp [List.getD]
  | cons a t ih =>
    cases i with
    | zero => simpa using h a (by simp)
    | succ k => simpa using ih (fun b hb => h b (by simp [hb])) k

theorem asohCovDiag_nonneg (asoh : ECMASOH) : ∀ a ∈ asohCovDiag asoh, 0 ≤ a := by
  intro a ha
  rcases List.mem_cons.mp ha with h | h
  · subst h; exact sq_nonneg _
  · rcases List.mem_map.mp h with ⟨r, _, rfl⟩
    exact sq_nonneg _

/-- C4: every covariance matrix `create_estimator` supplies to the filter
factory — the ASOH prior block, the transient prior block, both
process-noise blocks, and the sensor-noise covariance — is diagonal with
non-negative diagonal entries, hence symmetric positive-semi-definite, so
the `InvalidCovarianceError` branch at filter construction is unreachable
for the notebook's inputs. -/
theorem create_estimator_covariances_valid (initial_asoh : ECMASOH)
    (dataset : DataFrame) :
    DiagPSD (create_estimator initial_asoh dataset).dim_asoh
      (create_estimator initial_asoh dataset).covariance_asoh ∧
    DiagPSD 2 (create_estimator initial_asoh dataset).covariance_transient ∧
    DiagPSD 2 (create_estimator initial_asoh dataset).transient_covariance_process_noise ∧
    DiagPSD (create_estimator initial_asoh dataset).dim_asoh
      (create_estimator initial_asoh dataset).asoh_covariance_process_noise ∧
    DiagPSD 1 (create_estimator initial_asoh dataset).covariance_sensor_noise := by
  simp only [create_estimator]
  refine ⟨?_, ?_, ?_, ?_, ?_⟩
  · exact diagPSD_of (diagM_isDiag _)
      (fun i => by
        simpa [diagM] using getD_nonneg (asohCovDiag_nonneg initial_asoh) i)
  · exact diagPSD_of (diagM_isDiag _)
      (fun i => by
        have h : ∀ a ∈ ([1/12, 25/100000000] : List ℚ), 0 ≤ a := by
          intro a ha
          rcases List.mem_cons.mp ha with h | h
          · subst h; norm_num
          · rcases List.mem_cons.mp h with h | h
            · subst h; norm_num
            · simp at h
        simpa [diagM] using getD_nonneg h i)
  · refine diagPSD_of (scaledEyeM_isDiag _) (fun i => ?_)
    simp only [scaledEyeM, if_pos rfl]
    norm_num
  · refine diagPSD_of (scaledEyeM_isDiag _) (fun i => ?_)
    simp only [scaledEyeM, if_pos rfl]
    norm_num
  · refine diagPSD_of (scaledEyeM_isDiag _) (fun i => ?_)
    simp only [scaledEyeM, if_pos rfl]
    norm_num

/-! ## Interpolation safety on the padded OCV table (claim C3) -/

theorem lininterp_isSome (x : ℚ) :
    ∀ (ps : List ℚ) (p0 : ℚ) (v0 : ℚ) (vs : List ℚ),
      ps.length = vs.length →
      List.Chain' (· ≤ ·) (p0 :: ps) →
      ps ≠ [] →
      p0 ≤ x → x ≤ ps.getLastD p0 →
      (lininterp (p0 :: ps) (v0 :: vs) x).isSome := by
  intro ps
  induction ps with
  | nil => intro p0 v0 vs _ _ hne _ _; exact absurd rfl hne
  | cons p1 ps2 ih =>
    intro p0 v0 vs hlen hch _ hlo hhi
    cases vs with
    | nil => simp at hlen
    | cons v1 vs2 =>
      by_cases hbr : p0 ≤ x ∧ x ≤ p1
      · simp [lininterp, hbr]
      · have hx1 : p1 < x := by
          rcases not_and_or.mp hbr with h | h
          · exact absurd hlo h
          · exact lt_of_not_le h
        cases ps2 with
        | nil =>
          exfalso
          rw [List.getLastD_cons, List.getLastD_nil] at hhi
          exact absurd hhi (not_le.mpr hx1)
        | cons p2 ps3 =>
          have hrec := ih p1 v1 vs2 (by simpa using hlen)
            (List.chain'_cons'.mp hch).2 (by simp)
            (le_of_lt hx1) (by rw [List.getLastD_cons] at hhi; exact hhi)
          simpa [lininterp, hbr] using hrec

/-- C3: after the notebook's OCV-table construction, the padded SOC
pinpoints start at `-0.1` and end at `1.1`, the padded base values start
at the sentinel `0.0` and end at `6.5`, and a linear-interpolation query
at any state of charge in `[0, 1]` (the boundaries included) is defined. -/
theorem ocv_padding_safe (orig_soc orig_base : List ℚ)
    (hlen : orig_soc.length = orig_base.length)
    (hch : List.Chain' (· ≤ ·) orig_soc)
    (hlo : ∀ s ∈ orig_soc, 0 ≤ s) (hhi : ∀ s ∈ orig_soc, s ≤ 1) :
    (padSocPinpoints orig_soc).head? = some (-1/10) ∧
    (padSocPinpoints orig_soc).getLast? = some (11/10) ∧
    (padBaseVals orig_base).head? = some 0 ∧
    (padBaseVals orig_base).getLast? = some (13/2) ∧
    ∀ x : ℚ, 0 ≤ x → x ≤ 1 →
      (lininterp (padSocPinpoints orig_soc) (padBaseVals orig_base) x).isSome := by
  refine ⟨rfl, ?_, rfl, ?_, ?_⟩
  · show ((-1/10 :: (orig_soc ++ [11/10])) : List ℚ).getLast? = some (11/10)
    rw [show ((-1/10 : ℚ) :: (orig_soc ++ [11/10])) = (-1/10 :: orig_soc) ++ [11/10] by simp,
      List.getLast?_concat]
  · show ((0 :: (orig_base ++ [13/2])) : List ℚ).getLast? = some (13/2)
    rw [show ((0 : ℚ) :: (orig_base ++ [13/2])) = (0 :: orig_base) ++ [13/2] by simp,
      List.getLast?_concat]
  · intro x hx0 hx1
    apply lininterp_isSome x (orig_soc ++ [11/10]) (-1/10) 0 (orig_base ++ [13/2])
    · simp [hlen]
    · rw [List.chain'_cons']
      constructor
      · intro y hy
        have hmem := List.mem_of_mem_head? hy
        rcases List.mem_append.mp hmem with h | h
        · have := hlo y h; linarith
        · rcases List.mem_singleton.mp h with rfl; norm_num
      · rw [List.chain'_append]
        refine ⟨hch, List.chain'_singleton _, ?_⟩
        intro a ha b hb
        rcases List.mem_singleton.mp (List.mem_of_mem_head? hb) with rfl
        have hmem : a ∈ orig_soc := by
          rcases List.mem_getLast?_eq_getLast ha with ⟨hne, rfl⟩
          exact List.getLast_mem hne
        have := hhi a hmem; linarith
    · simp
    · linarith
    · have : (orig_soc ++ [11/10] : List ℚ).getLastD (-1/10) = 11/10 := by
        rw [List.getLastD_eq_getLast?, List.getLast?_concat]; rfl
      rw [this]; linarith

/-- Witness for C3 at a concrete two-point table. -/
theorem ocv_padding_safe_witness :
    (([0, 1] : List ℚ).length = ([2, 3] : List ℚ).length ∧
      List.Chain' (· ≤ ·) ([0, 1] : List ℚ) ∧
      (∀ s ∈ ([0, 1] : List ℚ), 0 ≤ s) ∧
      (∀ s ∈ ([0, 1] : List ℚ), s ≤ 1)) ∧
    ((padSocPinpoints [0, 1]).head? = some (-1/10) ∧
      (padSocPinpoints [0, 1]).getLast? = some (11/10) ∧
      (padBaseVals [2, 3]).head? = some 0 ∧
      (padBaseVals [2, 3]).getLast? = some (13/2) ∧
      ∀ x : ℚ, 0 ≤ x → x ≤ 1 →
        (lininterp (padSocPinpoints [0, 1]) (padBaseVals [2, 3]) x).isSome) :=
  ⟨⟨rfl, by
      norm_num [List.chain'_cons']
      exact fun y h => Option.noConfusion h, by norm_num, by norm_num⟩,
    ocv_padding_safe [0, 1] [2, 3] rfl
      (by
        norm_num [List.chain'_cons']
        exact fun y h => Option.noConfusion h)
      (by norm_num) (by norm_num)⟩

/-! ## Column lookup facts (claim C5) -/

theorem estRename_cancel {a b : String} (h : "est_" ++ a = "est_" ++ b) : a = b := by
  have h2 : ("est_" ++ a).data = ("est_" ++ b).data := by rw [h]
  rw [String.data_append, String.data_append] at h2
  exact String.ext (List.append_cancel_left h2)

theorem lookup_append_left {l1 l2 : DataFrame} {n : String} {v : Column}
    (h : l1.lookup n = some v) : (l1 ++ l2).lookup n = some v := by
  induction l1 with
  | nil => simp [List.lookup] at h
  | cons c rest ih =>
    rw [List.cons_append]
    simp only [List.lookup] at h ⊢
    cases hbe : (n == c.1) <;> simp only [hbe] at h ⊢
    · exact ih h
    · exact h

theorem lookup_append_right {l1 l2 : DataFrame} {n : String}
    (h : n ∉ l1.map Prod.fst) : (l1 ++ l2).lookup n = l2.lookup n := by
  induction l1 with
  | nil => simp
  | cons c rest ih =>
    rw [List.map_cons, List.mem_cons, not_or] at h
    rw [List.cons_append]
    simp only [List.lookup]
    have hbe : (n == c.1) = false := by simpa using h.1
    simp only [hbe]
    exact ih h.2

theorem lookup_renameEst (df : DataFrame) (n : String) :
    (renameEst df).lookup ("est_" ++ n) = df.lookup n := by
  induction df with
  | nil => simp [renameEst]
  | cons c rest ih =>
    simp only [renameEst, List.map_cons, List.lookup]
    by_cases he : n = c.1
    · simp [he]
    · have h1 : (n == c.1) = false := by simpa using he
      have h2 : (("est_" ++ n) == ("est_" ++ c.1)) = false := by
        simp only [beq_eq_false_iff_ne, ne_eq]
        exact fun hc => he (estRename_cancel hc)
      simp only [h1, h2]
      simpa [renameEst] using ih

/-- C5: joining the renamed estimate frame onto `raw_data` leaves every
original column unchanged, and for every joint-state dimension `d` whose
value column `d` and deviation column `d ++ "_std"` the estimator output
carries, the joined record has derived columns `est_d` and `est_d_std`
holding exactly those values (provided the derived names are fresh, as
pandas `join` itself requires). -/
theorem raw_data_join_estimates (raw out : DataFrame) (d : String)
    (vals stds : Column)
    (hval : out.lookup d = some vals)
    (hstd : out.lookup (d ++ "_std") = some stds)
    (hfresh1 : ("est_" ++ d) ∉ raw.map Prod.fst)
    (hfresh2 : ("est_" ++ (d ++ "_std")) ∉ raw.map Prod.fst) :
    (∀ n v, raw.lookup n = some v →
      (joinFrames raw (renameEst out)).lookup n = some v) ∧
    (joinFrames raw (renameEst out)).lookup ("est_" ++ d) = some vals ∧
    (joinFrames raw (renameEst out)).lookup ("est_" ++ (d ++ "_std")) = some stds := by
  refine ⟨fun n v h => lookup_append_left h, ?_, ?_⟩
  · rw [joinFrames, lookup_append_right hfresh1, lookup_renameEst]
    exact hval
  · rw [joinFrames, lookup_append_right hfresh2, lookup_renameEst]
    exact hstd

/-- Witness for C5 on concrete two-column frames. -/
theorem raw_data_join_estimates_witness :
    (([("soc", [1, 2]), ("soc_std", [3, 4])] : DataFrame).lookup "soc" = some [1, 2] ∧
      ([("soc", [1, 2]), ("soc_std", [3, 4])] : DataFrame).lookup ("soc" ++ "_std")
        = some [3, 4] ∧
      ("est_" ++ "soc") ∉ ([("test_time", [0, 1])] : DataFrame).map Prod.fst ∧
      ("est_" ++ ("soc" ++ "_std")) ∉ ([("test_time", [0, 1])] : DataFrame).map Prod.fst) ∧
    ((∀ n v, ([("test_time", [0, 1])] : DataFrame).lookup n = some v →
        (joinFrames [("test_time", [0, 1])]
          (renameEst [("soc", [1, 2]), ("soc_std", [3, 4])])).lookup n = some v) ∧
      (joinFrames [("test_time", [0, 1])]
        (renameEst [("soc", [1, 2]), ("soc_std", [3, 4])])).lookup ("est_" ++ "soc")
        = some [1, 2] ∧
      (joinFrames [("test_time", [0, 1])]
        (renameEst [("soc", [1, 2]), ("soc_std", [3, 4])])).lookup
          ("est_" ++ ("soc" ++ "_std")) = some [3, 4]) :=
  ⟨⟨by decide, by decide, by decide, by decide⟩,
    raw_data_join_estimates [("test_time", [0, 1])] [("soc", [1, 2]), ("soc_std", [3, 4])]
      "soc" [1, 2] [3, 4] (by decide) (by decide) (by decide) (by decide)⟩

/-! ## Group-by mean refinement (claim C6) -/

theorem findAgg_insertRow (k v : ℚ) (l : List (ℚ × ℚ × ℕ)) (c : ℚ) :
    findAgg (insertRow k v l) c =
      if c = k then
        (match findAgg l c with
          | none => some (v, 1)
          | some (s, n) => some (v + s, n + 1))
      else findAgg l c := by
  induction l with
  | nil =>
    by_cases h : c = k
    · subst h; simp [insertRow, findAgg]
    · simp [insertRow, findAgg, h, Ne.symm h]
  | cons e rest ih =>
    obtain ⟨k2, s, n⟩ := e
    by_cases h2 : k2 = k
    · subst h2
      by_cases h : c = k2
      · subst h; simp [insertRow, findAgg]
      · simp [insertRow, findAgg, h, Ne.symm h]
    · by_cases hkc : k2 = c
      · subst hkc
        simp [insertRow, findAgg, h2, Ne.symm h2]
      · simp [insertRow, findAgg, h2, hkc, ih]

theorem findAgg_groupAgg (rows : List (ℚ × ℚ)) (c : ℚ) :
    findAgg (groupAgg rows) c =
      if cycleSamples rows c = [] then none
      else some ((cycleSamples rows c).sum, (cycleSamples rows c).length) := by
  induction rows with
  | nil => simp [groupAgg, findAgg, cycleSamples]
  | cons r rest ih =>
    obtain ⟨k, v⟩ := r
    by_cases h : c = k
    · subst h
      have hsamp : cycleSamples ((c, v) :: rest) c = v :: cycleSamples rest c := by
        simp [cycleSamples]
      rw [groupAgg, findAgg_insertRow, if_pos rfl, ih, hsamp]
      by_cases he : cycleSamples rest c = []
      · simp [he]
      · simp [he]
    · have hsamp : cycleSamples ((k, v) :: rest) c = cycleSamples rest c := by
        simp [cycleSamples, Ne.symm h]
      rw [groupAgg, findAgg_insertRow, if_neg h, ih, hsamp]

theorem findMean_map_div (l : List (ℚ × ℚ × ℕ)) (c : ℚ) :
    findMean (l.map (fun e => (e.1, e.2.1 / (e.2.2 : ℚ)))) c =
      (findAgg l c).map (fun p => p.1 / (p.2 : ℚ)) := by
  induction l with
  | nil => simp [findMean, findAgg]
  | cons e rest ih =>
    by_cases h : e.1 = c
    · simp [findMean, findAgg, h]
    · simp [findMean, findAgg, h, ih]

/-- C6: for every cycle number present in the rows, the value the
`groupby(cycle).mean()` aggregation reports for that cycle is the simple
arithmetic mean of the estimates over exactly the samples of that
cycle. -/
theorem groupbyMean_eq_cycleMean (rows : List (ℚ × ℚ)) (c : ℚ)
    (hmem : c ∈ rows.map Prod.fst) :
    findMean (groupbyMean rows) c = some (cycleMean rows c) := by
  have hne : cycleSamples rows c ≠ [] := by
    rcases List.mem_map.mp hmem with ⟨r, hr, hc⟩
    have : r.2 ∈ cycleSamples rows c := by
      refine List.mem_map.mpr ⟨r, List.mem_filter.mpr ⟨hr, ?_⟩, rfl⟩
      simp [hc]
    exact List.ne_nil_of_mem this
  rw [groupbyMean, findMean_map_div, findAgg_groupAgg, if_neg hne]
  rfl

/-- Witness for C6: cycle `0` carries samples `2` and `4`, whose grouped
mean is `3`. -/
theorem groupbyMean_eq_cycleMean_witness :
    ((0 : ℚ) ∈ ([(0, 2), (1, 4), (0, 4)] : List (ℚ × ℚ)).map Prod.fst) ∧
    findMean (groupbyMean [(0, 2), (1, 4), (0, 4)]) 0 =
      some (cycleMean [(0, 2), (1, 4), (0, 4)] 0) :=
  ⟨by decide, groupbyMean_eq_cycleMean [(0, 2), (1, 4), (0, 4)] 0 (by decide)⟩

/-! ## Batch-loop facts (claims C1, C8, C10) -/

theorem lookup_append_split {α : Type} (l1 l2 : List (String × α)) (n : String) :
    (l1 ++ l2).lookup n =
      match l1.lookup n with
      | some v => some v
      | none => l2.lookup n := by
  induction l1 with
  | nil => simp [List.lookup]
  | cons c rest ih =>
    rw [List.cons_append]
    simp only [List.lookup]
    cases hbe : (n == c.1) <;> simp only [hbe, ih]

theorem processCell_error {runEst : RunEstimate} {cell : BatteryDataset} {e : Unit}
    (herr : runEst cell = .error e) (fs : FileSystem) :
    processCell runEst fs cell = fs := by
  unfold processCell
  split
  · rfl
  · rw [herr]

theorem processCell_skip {runEst : RunEstimate} {cell : BatteryDataset}
    {fs : FileSystem} (hex : (fs.lookup cell.name).isSome) :
    processCell runEst fs cell = fs := by
  unfold processCell
  rw [if_pos hex]

theorem processCell_ok {runEst : RunEstimate} {cell : BatteryDataset}
    {output : DataFrame} (hok : runEst cell = .ok output) {fs : FileSystem}
    (hnew : fs.lookup cell.name = none) :
    processCell runEst fs cell = fs ++ [(cell.name, attachEstimates cell output)] := by
  unfold processCell
  rw [if_neg (by simp [hnew]), hok]

theorem batchLoop_preserves (runEst : RunEstimate) (cells : List BatteryDataset) :
    ∀ (fs : FileSystem) (n : String) (v : BatteryDataset),
      fs.lookup n = some v → (batchLoop runEst fs cells).lookup n = some v := by
  induction cells with
  | nil => intro fs n v h; exact h
  | cons cell rest ih =>
    intro fs n v h
    rw [batchLoop, List.foldl_cons]
    refine ih (processCell runEst fs cell) n v ?_
    unfold processCell
    split
    · exact h
    · split
      · exact h
      · rw [lookup_append_split, h]

theorem batchLoop_lookup_none (runEst : RunEstimate) (cells : List BatteryDataset)
    (n : String) (hnot : n ∉ cells.map BatteryDataset.name) :
    ∀ fs : FileSystem, fs.lookup n = none →
      (batchLoop runEst fs cells).lookup n = none := by
  induction cells with
  | nil => intro fs h; exact h
  | cons cell rest ih =>
    rw [List.map_cons, List.mem_cons, not_or] at hnot
    intro fs h
    rw [batchLoop, List.foldl_cons]
    refine ih hnot.2 (processCell runEst fs cell) ?_
    unfold processCell
    split
    · exact h
    · split
      · exact h
      · rw [lookup_append_split, h]
        simpa using hnot.1

/-- C1 (amended): a `np.linalg.LinAlgError` raised by `run_online_estimate`
is caught at whole-cell granularity; the loop abandons that cell entirely
(recording nothing for it) and continues with the remaining cells exactly
as if the failed cell were absent. -/
theorem linalg_error_skips_cell (runEst : RunEstimate) (fs : FileSystem)
    (cell : BatteryDataset) (rest : List BatteryDataset) (e : Unit)
    (herr : runEst cell = .error e) :
    batchLoop runEst fs (cell :: rest) = batchLoop runEst fs rest := by
  rw [batchLoop, List.foldl_cons, processCell_error herr]
  rfl

/-- Witness for the amended C1. -/
theorem linalg_error_skips_cell_witness :
    ((fun _ : BatteryDataset => (Except.error () : Except Unit DataFrame))
        ⟨"a", [("test_time", [0])], [("cycle_number", [0])]⟩ = .error ()) ∧
    batchLoop (fun _ => Except.error ()) []
        [⟨"a", [("test_time", [0])], [("cycle_number", [0])]⟩,
          ⟨"b", [("test_time", [1])], [("cycle_number", [0])]⟩] =
      batchLoop (fun _ => Except.error ()) []
        [⟨"b", [("test_time", [1])], [("cycle_number", [0])]⟩] :=
  ⟨rfl, linalg_error_skips_cell (fun _ => Except.error ()) []
    ⟨"a", [("test_time", [0])], [("cycle_number", [0])]⟩
    [⟨"b", [("test_time", [1])], [("cycle_number", [0])]⟩] () rfl⟩

/-- Counterexample to C1 as stated: with a run that fails with a
linear-algebra error on the only cell, the completed loop's persisted
record holds NO entry for that cell — the failed steps are not recorded
as unestimated anywhere, and no success/failure count is reported; the
run's entire output state is the unchanged (empty) estimates directory. -/
theorem linalg_error_records_nothing_counterexample :
    batchLoop (fun _ => Except.error ()) []
        [⟨"a", [("test_time", [0])], [("cycle_number", [0])]⟩] = [] ∧
    (batchLoop (fun _ => Except.error ())
        [] [⟨"a", [("test_time", [0])], [("cycle_number", [0])]⟩]).lookup "a"
      = none :=
  ⟨rfl, rfl⟩

/-- C8: output files are atomic with respect to run failure: when
`run_online_estimate` raises a linear-algebra error on a fresh cell, no
output file for it is ever written (not by this iteration, and — when no
later cell shares the name — not by the rest of the loop either), while on
success the file written is the completely attached cell (estimates
joined and per-cycle averaging done). -/
theorem output_file_atomic (runEst : RunEstimate) (fs : FileSystem)
    (cell : BatteryDataset) (rest : List BatteryDataset)
    (hnew : fs.lookup cell.name = none) :
    (∀ e : Unit, runEst cell = .error e → cell.name ∉ rest.map BatteryDataset.name →
      (batchLoop runEst fs (cell :: rest)).lookup cell.name = none) ∧
    (∀ output : DataFrame, runEst cell = .ok output →
      (batchLoop runEst fs (cell :: rest)).lookup cell.name =
        some (attachEstimates cell output)) := by
  constructor
  · intro e herr hnot
    rw [batchLoop, List.foldl_cons, processCell_error herr]
    exact batchLoop_lookup_none runEst rest cell.name hnot fs hnew
  · intro output hok
    rw [batchLoop, List.foldl_cons, processCell_ok hok hnew]
    refine batchLoop_preserves runEst rest _ cell.name _ ?_
    rw [lookup_append_split, hnew]
    simp [List.lookup]

/-- Witness for C8: an erroring cell leaves no file; a succeeding cell's
file is the fully attached dataset. -/
theorem output_file_atomic_witness :
    (([] : FileSystem).lookup "a" = none ∧
      (fun _ : BatteryDataset => (Except.error () : Except Unit DataFrame))
        ⟨"a", [("cycle_number", [0])], []⟩ = .error () ∧
      "a" ∉ ([] : List BatteryDataset).map BatteryDataset.name) ∧
    (batchLoop (fun _ => Except.error ()) []
        [⟨"a", [("cycle_number", [0])], []⟩]).lookup "a" = none ∧
    (batchLoop (fun _ => Except.ok [("soc", [2])]) []
        [⟨"a", [("cycle_number", [0])], []⟩]).lookup "a" =
      some (attachEstimates ⟨"a", [("cycle_number", [0])], []⟩ [("soc", [2])]) :=
  ⟨⟨rfl, rfl, by simp⟩,
    (output_file_atomic (fun _ => Except.error ()) []
      ⟨"a", [("cycle_number", [0])], []⟩ [] rfl).1 () rfl (by simp),
    (output_file_atomic (fun _ => Except.ok [("soc", [2])]) []
      ⟨"a", [("cycle_number", [0])], []⟩ [] rfl).2 [("soc", [2])] rfl⟩

/-- C10: the loop is idempotent over the estimates directory: a cell whose
output file exists is skipped without estimation (the directory state is
returned untouched), and a full pass never changes any already-existing
file, so re-running the loop after a completed pass rewrites nothing. -/
theorem batch_loop_idempotent (runEst : RunEstimate) (fs : FileSystem)
    (cells : List BatteryDataset) :
    (∀ cell : BatteryDataset, (fs.lookup cell.name).isSome →
      processCell runEst fs cell = fs) ∧
    (∀ (n : String) (v : BatteryDataset), fs.lookup n = some v →
      (batchLoop runEst fs cells).lookup n = some v) := by
  exact ⟨fun cell hex => processCell_skip hex,
    fun n v h => batchLoop_preserves runEst cells fs n v h⟩

/-- Witness for C10: with cell `a`'s file already present, the loop skips
it and the file's contents survive a full pass unchanged. -/
theorem batch_loop_idempotent_witness :
    ((([("a", ⟨"a", [("soc", [5])], []⟩)] : FileSystem).lookup "a").isSome ∧
      processCell (fun _ => Except.ok [("soc", [9])])
          [("a", ⟨"a", [("soc", [5])], []⟩)] ⟨"a", [("cycle_number", [0])], []⟩ =
        [("a", ⟨"a", [("soc", [5])], []⟩)]) ∧
    (batchLoop (fun _ => Except.ok [("soc", [9])])
        [("a", ⟨"a", [("soc", [5])], []⟩)]
        [⟨"a", [("cycle_number", [0])], []⟩]).lookup "a" =
      some ⟨"a", [("soc", [5])], []⟩ :=
  ⟨⟨by simp [List.lookup],
      (batch_loop_idempotent (fun _ => Except.ok [("soc", [9])])
        [("a", ⟨"a", [("soc", [5])], []⟩)] [⟨"a", [("cycle_number", [0])], []⟩]).1
        ⟨"a", [("cycle_number", [0])], []⟩ (by simp [List.lookup])⟩,
    (batch_loop_idempotent (fun _ => Except.ok [("soc", [9])])
      [("a", ⟨"a", [("soc", [5])], []⟩)] [⟨"a", [("cycle_number", [0])], []⟩]).2
      "a" ⟨"a", [("soc", [5])], []⟩ (by simp [List.lookup])⟩

/-! ## Heap-model facts (claims C2, C7) -/

theorem applyCorrection_readAsoh_ne (hh : Heap) (e : EstimatorRef)
    (s : (ECMASOH → ECMASOH) × (ECMTransientVector → ECMTransientVector))
    (r : Nat) (hne : r ≠ e.asohRef) :
    (applyCorrection hh e s).readAsoh r = hh.readAsoh r := by
  unfold applyCorrection Heap.readAsoh Heap.writeTran Heap.writeAsoh
  exact List.getElem?_set_ne (Ne.symm hne)

theorem runFilterH_readAsoh_ne (e : EstimatorRef)
    (steps : List ((ECMASOH → ECMASOH) × (ECMTransientVector → ECMTransientVector)))
    (r : Nat) (hne : r ≠ e.asohRef) :
    ∀ hh : Heap, (runFilterH hh e steps).readAsoh r = hh.readAsoh r := by
  induction steps with
  | nil => intro hh; rfl
  | cons s rest ih =>
    intro hh
    rw [runFilterH, List.foldl_cons]
    rw [show List.foldl (fun hh2 s2 => applyCorrection hh2 e s2) (applyCorrection hh e s) rest
        = runFilterH (applyCorrection hh e s) e rest from rfl]
    rw [ih (applyCorrection hh e s), applyCorrection_readAsoh_ne hh e s r hne]

theorem applyCorrection_lengths (hh : Heap) (e : EstimatorRef)
    (s : (ECMASOH → ECMASOH) × (ECMTransientVector → ECMTransientVector)) :
    (applyCorrection hh e s).asohs.length = hh.asohs.length ∧
    (applyCorrection hh e s).trans.length = hh.trans.length := by
  unfold applyCorrection Heap.writeTran Heap.writeAsoh
  simp [List.length_set]

theorem runFilterH_lengths (e : EstimatorRef)
    (steps : List ((ECMASOH → ECMASOH) × (ECMTransientVector → ECMTransientVector))) :
    ∀ hh : Heap, (runFilterH hh e steps).asohs.length = hh.asohs.length ∧
      (runFilterH hh e steps).trans.length = hh.trans.length := by
  induction steps with
  | nil => intro hh; exact ⟨rfl, rfl⟩
  | cons s rest ih =>
    intro hh
    rw [runFilterH, List.foldl_cons]
    rw [show List.foldl (fun hh2 s2 => applyCorrection hh2 e s2) (applyCorrection hh e s) rest
        = runFilterH (applyCorrection hh e s) e rest from rfl]
    have h1 := ih (applyCorrection hh e s)
    have h2 := applyCorrection_lengths hh e s
    exact ⟨h1.1.trans h2.1, h1.2.trans h2.2⟩

theorem create_estimatorH_spec (h : Heap) (r : Nat) :
    (create_estimatorH h r).2.tranRef = h.trans.length ∧
    (create_estimatorH h r).2.asohRef = h.asohs.length ∧
    (create_estimatorH h r).1.trans.length = h.trans.length + 1 ∧
    (create_estimatorH h r).1.asohs.length = h.asohs.length + 1 ∧
    (∀ i, i < h.asohs.length → (create_estimatorH h r).1.readAsoh i = h.readAsoh i) ∧
    ((create_estimatorH h r).1.readTran (create_estimatorH h r).2.tranRef).map
      ECMTransientVector.soc = some 1 := by
  unfold create_estimatorH Heap.allocTran Heap.allocAsoh Heap.writeTran Heap.readTran
    Heap.readAsoh
  refine ⟨rfl, rfl, ?_, ?_, ?_, ?_⟩
  · simp [List.length_set]
  · simp
  · intro i hi
    simpa using List.getElem?_append_left hi
  · simp only []
    rw [List.getElem?_set_self (by simp)]
    simp [ECMTransientVector.from_asoh, List.getElem?_concat_length]

/-- C2: the filter's working ASOH is a deep copy of the caller's
`initial_asoh` object: after constructing an estimator from reference `r`
and running it to completion (any sequence of correction writes through
the estimator's own references), the object at `r` still dereferences to
its original value. -/
theorem run_leaves_initial_asoh_unchanged (h : Heap) (r : Nat)
    (hr : r < h.asohs.length)
    (steps : List ((ECMASOH → ECMASOH) × (ECMTransientVector → ECMTransientVector))) :
    (runFilterH (create_estimatorH h r).1 (create_estimatorH h r).2 steps).readAsoh r
      = h.readAsoh r := by
  have hspec := create_estimatorH_spec h r
  have hne : r ≠ (create_estimatorH h r).2.asohRef := by
    rw [hspec.2.1]; exact Nat.ne_of_lt hr
  rw [runFilterH_readAsoh_ne (create_estimatorH h r).2 steps r hne
    (create_estimatorH h r).1]
  exact hspec.2.2.2.2.1 r hr

/-- Witness for C2: a one-object heap, with a correction that overwrites
the working copy; the original object is untouched. -/
theorem run_leaves_initial_asoh_unchanged_witness :
    (0 < (Heap.mk [⟨1, [2], [0, 1], [3, 4]⟩] []).asohs.length) ∧
    (runFilterH (create_estimatorH ⟨[⟨1, [2], [0, 1], [3, 4]⟩], []⟩ 0).1
        (create_estimatorH ⟨[⟨1, [2], [0, 1], [3, 4]⟩], []⟩ 0).2
        [(fun _ => ⟨9, [], [], []⟩, fun t => t)]).readAsoh 0
      = (Heap.mk [⟨1, [2], [0, 1], [3, 4]⟩] []).readAsoh 0 :=
  ⟨Nat.zero_lt_one,
    run_leaves_initial_asoh_unchanged ⟨[⟨1, [2], [0, 1], [3, 4]⟩], []⟩ 0
      Nat.zero_lt_one [(fun _ => ⟨9, [], [], []⟩, fun t => t)]⟩

theorem batchLoopH_refs_lb (r : Nat)
    (runs : BatteryDataset →
      List ((ECMASOH → ECMASOH) × (ECMTransientVector → ECMTransientVector)))
    (cells : List BatteryDataset) :
    ∀ h : Heap, ∀ e ∈ (batchLoopH r runs h cells).2,
      h.trans.length ≤ e.tranRef ∧ h.asohs.length ≤ e.asohRef := by
  induction cells with
  | nil => intro h e he; simp [batchLoopH] at he
  | cons cell rest ih =>
    intro h e he
    rw [batchLoopH] at he
    rcases List.mem_cons.mp he with rfl | hmem
    · have hspec := create_estimatorH_spec h r
      exact ⟨le_of_eq hspec.1.symm, le_of_eq hspec.2.1.symm⟩
    · have hspec := create_estimatorH_spec h r
      have hlen := runFilterH_lengths (create_estimatorH h r).2 (runs cell)
        (create_estimatorH h r).1
      have hb := ih _ e hmem
      constructor
      · calc h.trans.length ≤ h.trans.length + 1 := Nat.le_succ _
          _ = (create_estimatorH h r).1.trans.length := hspec.2.2.1.symm
          _ = _ := hlen.2.symm
          _ ≤ e.tranRef := hb.1
      · calc h.asohs.length ≤ h.asohs.length + 1 := Nat.le_succ _
          _ = (create_estimatorH h r).1.asohs.length := hspec.2.2.2.1.symm
          _ = _ := hlen.1.symm
          _ ≤ e.asohRef := hb.2

theorem batchLoopH_refs_pairwise (r : Nat)
    (runs : BatteryDataset →
      List ((ECMASOH → ECMASOH) × (ECMTransientVector → ECMTransientVector)))
    (cells : List BatteryDataset) :
    ∀ h : Heap, ((batchLoopH r runs h cells).2).Pairwise
      (fun a b => a.tranRef < b.tranRef ∧ a.asohRef < b.asohRef) := by
  induction cells with
  | nil => intro h; simp [batchLoopH]
  | cons cell rest ih =>
    intro h
    rw [batchLoopH]
    refine List.Pairwise.cons ?_ (ih _)
    intro b hb
    have hspec := create_estimatorH_spec h r
    have hlen := runFilterH_lengths (create_estimatorH h r).2 (runs cell)
      (create_estimatorH h r).1
    have hbnd := batchLoopH_refs_lb r runs rest _ b hb
    constructor
    · rw [hspec.1]
      calc h.trans.length < h.trans.length + 1 := Nat.lt_succ_self _
        _ = (create_estimatorH h r).1.trans.length := hspec.2.2.1.symm
        _ = _ := hlen.2.symm
        _ ≤ b.tranRef := hbnd.1
    · rw [hspec.2.1]
      calc h.asohs.length < h.asohs.length + 1 := Nat.lt_succ_self _
        _ = (create_estimatorH h r).1.asohs.length := hspec.2.2.2.1.symm
        _ = _ := hlen.1.symm
        _ ≤ b.asohRef := hbnd.2

/-- C7: the transient state is constructed once, before the filter
starts, with the state of charge set exactly to `1.` (fully charged), and
every cell in the batch gets its own freshly constructed estimator: the
working transient-state and ASOH references of distinct iterations are
pairwise distinct objects. -/
theorem transients_initialized_fresh (h : Heap) (r : Nat)
    (runs : BatteryDataset →
      List ((ECMASOH → ECMASOH) × (ECMTransientVector → ECMTransientVector)))
    (cells : List BatteryDataset) :
    (((create_estimatorH h r).1.readTran (create_estimatorH h r).2.tranRef).map
        ECMTransientVector.soc = some 1) ∧
    ((batchLoopH r runs h cells).2.map EstimatorRef.tranRef).Pairwise (· ≠ ·) ∧
    ((batchLoopH r runs h cells).2.map EstimatorRef.asohRef).Pairwise (· ≠ ·) := by
  refine ⟨(create_estimatorH_spec h r).2.2.2.2.2, ?_, ?_⟩
  · exact List.Pairwise.map _ (fun a b hab => Nat.ne_of_lt hab.1)
      (batchLoopH_refs_pairwise r runs cells h)
  · exact List.Pairwise.map _ (fun a b hab => Nat.ne_of_lt hab.2)
      (batchLoopH_refs_pairwise r runs cells h)

/-! ## Noninterference of later samples (claim C9) -/

/-- C9: the estimator configuration `create_estimator` builds depends on
its dataset argument only through the first sample's `test_time` and
`current`: two datasets agreeing there yield identical estimators — every
prior mean, covariance, and noise term comes from the shared module-level
`initial_asoh` and fixed constants. -/
theorem create_estimator_first_sample_only (initial_asoh : ECMASOH)
    (ds1 ds2 : DataFrame)
    (ht : firstVal ds1 "test_time" = firstVal ds2 "test_time")
    (hc : firstVal ds1 "current" = firstVal ds2 "current") :
    create_estimator initial_asoh ds1 = create_estimator initial_asoh ds2 := by
  unfold create_estimator
  rw [ht, hc]

/-- Witness for C9: two datasets sharing only their first
`test_time`/`current` sample (and differing everywhere else, including an
extra column) produce equal estimator configurations. -/
theorem create_estimator_first_sample_only_witness :
    (firstVal [("test_time", [5, 6]), ("current", [7, 8])] "test_time" =
        firstVal [("test_time", [5, 99]), ("current", [7, 42]), ("voltage", [1, 2])]
          "test_time" ∧
      firstVal [("test_time", [5, 6]), ("current", [7, 8])] "current" =
        firstVal [("test_time", [5, 99]), ("current", [7, 42]), ("voltage", [1, 2])]
          "current") ∧
    create_estimator ⟨10, [1/100], [0, 1], [3, 4]⟩
        [("test_time", [5, 6]), ("current", [7, 8])] =
      create_estimator ⟨10, [1/100], [0, 1], [3, 4]⟩
        [("test_time", [5, 99]), ("current", [7, 42]), ("voltage", [1, 2])] :=
  ⟨⟨rfl, rfl⟩,
    create_estimator_first_sample_only ⟨10, [1/100], [0, 1], [3, 4]⟩
      [("test_time", [5, 6]), ("current", [7, 8])]
      [("test_time", [5, 99]), ("current", [7, 42]), ("voltage", [1, 2])] rfl rfl⟩

end RunAsohEstimation
